import Mathlib

/-
  Verification of the byte-level I/O substrate in dicom/filebase.py
  (class DicomIO and its helpers).

  The underlying file-like object (StringIO / file) is an external
  collaborator; it is modelled as a SourceState: a byte list, a current
  position, and a per-call cap schedule that lets the source return fewer
  bytes than requested (a short read).  parent_read k returns at most k
  bytes, at most the caps head when present, and at most the bytes that
  remain, advancing the position by exactly the number returned.

  Bytes are Nat values; machine-level byte values stay below 256 because
  pack emits residues mod 256.
-/

namespace FileBase

/-- Endianness selector for the bound read/write variants. -/
inductive Endian where
  | le
  | be
deriving DecidableEq, Repr

/-- State of the underlying byte source: full contents, current position,
and a schedule of per-call caps modelling short reads (none = no cap). -/
structure SourceState where
  data : List Nat
  pos : Nat
  caps : List (Option Nat)
deriving DecidableEq, Repr

/-- Error outcomes of the embedded methods. -/
inductive StreamErr where
  /-- EOFError raised inside DicomIO.read after the retry loop, carrying
  the obtained count, the expected count and the computed start offset. -/
  | eofExact (obtained expected startPos : Nat)
  /-- bare EOFError raised by read_leUS / read_beUS on zero bytes. -/
  | eofEmpty
  /-- AttributeError: the method name is not bound on the instance. -/
  | attrError
deriving DecidableEq, Repr

/-- Cap imposed on one underlying call: the head of the cap schedule,
when present, bounds the requested count. -/
def callCap (k : Nat) (caps : List (Option Nat)) : Nat :=
  match caps.head? with
  | some (some c) => min k c
  | _ => k

/-- One call to the underlying file-like read (self.parent_read in the
source): returns at most the requested count, at most the current cap,
and at most what remains, advancing the position by the returned count. -/
def parent_read (k : Nat) (s : SourceState) : List Nat × SourceState :=
  let cnt := min (callCap k s.caps) (s.data.length - s.pos)
  ((s.data.drop s.pos).take cnt, ⟨s.data, s.pos + cnt, s.caps.tail⟩)

/-- The position reported by the underlying tell(). -/
def tell (s : SourceState) : Nat := s.pos

/-- Number of retry attempts in DicomIO.read (source line 18). -/
def max_read_attempts : Nat := 3

/-- The retry loop of DicomIO.read (source lines 61-64): while attempts
remain and the accumulated bytes are short, request the remaining
shortfall and append the result.  The third component records the call
trace as (requested, returned) pairs. -/
def readLoop : Nat → Nat → List Nat → SourceState → List Nat × SourceState × List (Nat × Nat)
  | 0, _, bytes, s => (bytes, s, [])
  | Nat.succ fuel, len, bytes, s =>
    if bytes.length < len then
      let pr := parent_read (len - bytes.length) s
      let rest := readLoop fuel len (bytes ++ pr.1) pr.2
      (rest.1, rest.2.1, (len - bytes.length, pr.1.length) :: rest.2.2)
    else (bytes, s, [])

/-- DicomIO.read (source lines 50-71).  length = none reads everything
remaining; otherwise one underlying read of the requested length is
issued and, when short with need_exact_length, the retry loop runs; a
still-short accumulation raises EOFError carrying the obtained count,
the expected count and tell() minus the accumulated length.  The third
component is the trace of underlying calls as (requested, returned). -/
def read (s : SourceState) (length : Option Nat) (need_exact_length : Bool) :
    Except StreamErr (List Nat) × SourceState × List (Nat × Nat) :=
  match length with
  | none =>
    (Except.ok (s.data.drop s.pos), ⟨s.data, s.data.length, s.caps.tail⟩,
      [(s.data.length - s.pos, (s.data.drop s.pos).length)])
  | some len =>
    let pr := parent_read len s
    if pr.1.length < len ∧ need_exact_length = true then
      let lp := readLoop max_read_attempts len pr.1 pr.2
      if lp.1.length < len then
        (Except.error (StreamErr.eofExact lp.1.length len (tell lp.2.1 - lp.1.length)),
          lp.2.1, (len, pr.1.length) :: lp.2.2)
      else
        (Except.ok lp.1, lp.2.1, (len, pr.1.length) :: lp.2.2)
    else
      (Except.ok pr.1, pr.2, [(len, pr.1.length)])

/-- struct.pack with format <H: two bytes, least significant first. -/
def pack_leUS (v : Nat) : List Nat := [v % 256, v / 256 % 256]

/-- struct.pack with format >H: two bytes, most significant first. -/
def pack_beUS (v : Nat) : List Nat := [v / 256 % 256, v % 256]

/-- struct.pack with format <L: four bytes, least significant first. -/
def pack_leUL (v : Nat) : List Nat :=
  [v % 256, v / 256 % 256, v / 65536 % 256, v / 16777216 % 256]

/-- struct.pack with format >L: four bytes, most significant first. -/
def pack_beUL (v : Nat) : List Nat :=
  [v / 16777216 % 256, v / 65536 % 256, v / 256 % 256, v % 256]

/-- struct.unpack with format <H on a two-byte string. -/
def unpack_leUS (b : List Nat) : Nat := b.getD 0 0 + 256 * b.getD 1 0

/-- struct.unpack with format >H on a two-byte string. -/
def unpack_beUS (b : List Nat) : Nat := 256 * b.getD 0 0 + b.getD 1 0

/-- struct.unpack with format <L on a four-byte string. -/
def unpack_leUL (b : List Nat) : Nat :=
  b.getD 0 0 + 256 * b.getD 1 0 + 65536 * b.getD 2 0 + 16777216 * b.getD 3 0

/-- struct.unpack with format >L on a four-byte string. -/
def unpack_beUL (b : List Nat) : Nat :=
  16777216 * b.getD 0 0 + 65536 * b.getD 1 0 + 256 * b.getD 2 0 + b.getD 3 0

/-- read_leUS (source lines 33-38): read exactly two bytes, raise a bare
EOFError when zero bytes came back, else unpack little endian. -/
def read_leUS (s : SourceState) : Except StreamErr (Nat × SourceState) :=
  match read s (some 2) true with
  | (Except.error e, _, _) => Except.error e
  | (Except.ok bytes, s1, _) =>
    if bytes.length = 0 then Except.error StreamErr.eofEmpty
    else Except.ok (unpack_leUS bytes, s1)

/-- read_beUS (source lines 40-45): as read_leUS with big endian order. -/
def read_beUS (s : SourceState) : Except StreamErr (Nat × SourceState) :=
  match read s (some 2) true with
  | (Except.error e, _, _) => Except.error e
  | (Except.ok bytes, s1, _) =>
    if bytes.length = 0 then Except.error StreamErr.eofEmpty
    else Except.ok (unpack_beUS bytes, s1)

/-- read_leUL (source lines 47-49): read four bytes, unpack little endian. -/
def read_leUL (s : SourceState) : Except StreamErr (Nat × SourceState) :=
  match read s (some 4) true with
  | (Except.error e, _, _) => Except.error e
  | (Except.ok bytes, s1, _) => Except.ok (unpack_leUL bytes, s1)

/-- read_beUL (source lines 88-90): read four bytes, unpack big endian. -/
def read_beUL (s : SourceState) : Except StreamErr (Nat × SourceState) :=
  match read s (some 4) true with
  | (Except.error e, _, _) => Except.error e
  | (Except.ok bytes, s1, _) => Except.ok (unpack_beUL bytes, s1)

/-- write_leUS (source lines 72-74): bytes passed to self.write. -/
def write_leUS (v : Nat) : List Nat := pack_leUS v

/-- write_leUL (source lines 75-77): bytes passed to self.write. -/
def write_leUL (v : Nat) : List Nat := pack_leUL v

/-- write_beUS (source lines 78-80): bytes passed to self.write. -/
def write_beUS (v : Nat) : List Nat := pack_beUS v

/-- write_beUL (source lines 81-83): bytes passed to self.write. -/
def write_beUL (v : Nat) : List Nat := pack_beUL v

/-- Modelled from the spec: the Tag class lives in dicom/tag.py, which is
not part of the excerpt.  Per the spec (sections 3 and 4.5) a Tag is an
immutable ordered pair of a 16-bit group and a 16-bit element. -/
structure Tag where
  group : Nat
  element : Nat
deriving DecidableEq, Repr

/-- Modelled from the spec: the Tag constructor applied to a raw
(group, element) pair yields the Tag with those two fields. -/
def Tag.ofPair (g e : Nat) : Tag := ⟨g, e⟩

/-- Argument accepted by write_tag: a Tag value or an equivalent raw pair. -/
inductive TagLike where
  | tag (t : Tag)
  | pair (g e : Nat)
deriving DecidableEq, Repr

/-- Modelled from the spec: Tag(tag) normalization in write_tag (source
line 30) turns an accepted input into a Tag value. -/
def TagLike.toTag : TagLike → Tag
  | .tag t => t
  | .pair g e => Tag.ofPair g e

/-- Per-instance state of a DicomIO object: the _LittleEndian attribute
(absent until the first endianness assignment), the _ImplicitVR
attribute, and the four instance-attribute method bindings installed by
_setLittleEndian (absent until then; the class itself binds write_US and
write_UL to the little-endian variants, source lines 85-86, and has no
class-level read_US or read_UL). -/
structure DicomState where
  LittleEndian : Option Bool
  ImplicitVR : Bool
  read_US_b : Option Endian
  read_UL_b : Option Endian
  write_US_b : Option Endian
  write_UL_b : Option Endian
deriving DecidableEq, Repr

/-- DicomIO.__init__ (source lines 21-22): only _ImplicitVR is set. -/
def initState : DicomState :=
  ⟨none, true, none, none, none, none⟩

/-- _setLittleEndian (source lines 94-105): record the flag and bind the
four read/write method names to the variants of the chosen order. -/
def setLittleEndian (v : Bool) (st : DicomState) : DicomState :=
  { st with
    LittleEndian := some v,
    read_US_b := some (if v then Endian.le else Endian.be),
    read_UL_b := some (if v then Endian.le else Endian.be),
    write_US_b := some (if v then Endian.le else Endian.be),
    write_UL_b := some (if v then Endian.le else Endian.be) }

/-- _setBigEndian (source lines 109-110): assigns the complement through
the isLittleEndian property. -/
def setBigEndian (v : Bool) (st : DicomState) : DicomState :=
  setLittleEndian (!v) st

/-- _setImplicitVR (source lines 115-116). -/
def setImplicitVR (v : Bool) (st : DicomState) : DicomState :=
  { st with ImplicitVR := v }

/-- _setExplicitVR (source lines 117-118): complement via isImplicitVR. -/
def setExplicitVR (v : Bool) (st : DicomState) : DicomState :=
  setImplicitVR (!v) st

/-- _getLittleEndian (source lines 107-108); none models the
AttributeError raised when _LittleEndian was never assigned. -/
def getLittleEndian (st : DicomState) : Option Bool := st.LittleEndian

/-- _getBigEndian (source lines 111-112): not isLittleEndian, with the
AttributeError of an unset flag propagating. -/
def getBigEndian (st : DicomState) : Option Bool :=
  st.LittleEndian.map (fun b => !b)

/-- _getImplicitVR (source lines 113-114). -/
def getImplicitVR (st : DicomState) : Bool := st.ImplicitVR

/-- _getExplicitVR (source lines 119-120). -/
def getExplicitVR (st : DicomState) : Bool := !st.ImplicitVR

/-- Attribute lookup of read_US on an instance: the binding installed by
_setLittleEndian when present, otherwise AttributeError (the class has
no read_US). -/
def read_US (st : DicomState) (s : SourceState) : Except StreamErr (Nat × SourceState) :=
  match st.read_US_b with
  | none => Except.error StreamErr.attrError
  | some Endian.le => read_leUS s
  | some Endian.be => read_beUS s

/-- Attribute lookup of read_UL on an instance, as for read_US. -/
def read_UL (st : DicomState) (s : SourceState) : Except StreamErr (Nat × SourceState) :=
  match st.read_UL_b with
  | none => Except.error StreamErr.attrError
  | some Endian.le => read_leUL s
  | some Endian.be => read_beUL s

/-- Attribute lookup of write_US: the instance binding when present,
otherwise the class attribute write_US = write_leUS (source line 85).
Returns the bytes passed to self.write. -/
def write_US (st : DicomState) (v : Nat) : List Nat :=
  match st.write_US_b with
  | none => write_leUS v
  | some Endian.le => write_leUS v
  | some Endian.be => write_beUS v

/-- Attribute lookup of write_UL: the instance binding when present,
otherwise the class attribute write_UL = write_leUL (source line 86). -/
def write_UL (st : DicomState) (v : Nat) : List Nat :=
  match st.write_UL_b with
  | none => write_leUL v
  | some Endian.le => write_leUL v
  | some Endian.be => write_beUL v

/-- read_tag (source lines 25-27): two read_US calls, group first, packed
into a Tag; any error propagates unchanged. -/
def read_tag (st : DicomState) (s : SourceState) : Except StreamErr (Tag × SourceState) :=
  match read_US st s with
  | Except.error e => Except.error e
  | Except.ok (g, s1) =>
    match read_US st s1 with
    | Except.error e => Except.error e
    | Except.ok (el, s2) => Except.ok (Tag.ofPair g el, s2)

/-- write_tag (source lines 28-32): normalize the argument to a Tag, then
write the group and the element with the bound 16-bit writer; the result
is the byte sequence passed to the sink. -/
def write_tag (st : DicomState) (t : TagLike) : List Nat :=
  write_US st (TagLike.toTag t).group ++ write_US st (TagLike.toTag t).element

/-- One call to a mode mutator property of DicomIO (source lines 122-125). -/
inductive Mutator where
  | setLE (v : Bool)
  | setBE (v : Bool)
  | setIVR (v : Bool)
  | setEVR (v : Bool)
deriving DecidableEq, Repr

/-- Dispatch of a mutator call to the corresponding property setter. -/
def applyMutator : Mutator → DicomState → DicomState
  | .setLE v, st => setLittleEndian v st
  | .setBE v, st => setBigEndian v st
  | .setIVR v, st => setImplicitVR v st
  | .setEVR v, st => setExplicitVR v st

/-- Whether a mutator call assigns the endianness axis. -/
def touchesEndian : Mutator → Bool
  | .setLE _ => true
  | .setBE _ => true
  | _ => false

/-- A sequence of mutator calls applied in order. -/
def applyAll (ms : List Mutator) (st : DicomState) : DicomState :=
  ms.foldl (fun s m => applyMutator m s) st

/-- Boolean check that a call trace requests exactly the remaining
shortfall at each step: entry i requests n minus the bytes accumulated
by the earlier entries. -/
def shortfallsB (n : Nat) : Nat → List (Nat × Nat) → Bool
  | _, [] => true
  | acc, (r, c) :: rest => (r == n - acc) && shortfallsB n (acc + c) rest

lemma callCap_le (k : Nat) (caps : List (Option Nat)) : callCap k caps ≤ k := by
  rcases h : caps.head? with _ | (_ | c) <;> simp [callCap, h]

lemma parent_read_len_le (k : Nat) (s : SourceState) :
    ((parent_read k s).1).length ≤ k := by
  have h := callCap_le k s.caps
  simp only [parent_read, List.length_take, List.length_drop]
  omega

lemma parent_read_pos (k : Nat) (s : SourceState) :
    (parent_read k s).2.pos = s.pos + ((parent_read k s).1).length := by
  simp only [parent_read, List.length_take, List.length_drop]
  omega

lemma readLoop_calls_le (fuel len : Nat) :
    ∀ bytes s, ((readLoop fuel len bytes s).2.2).length ≤ fuel := by
  induction fuel with
  | zero => intro bytes s; simp [readLoop]
  | succ n ih =>
    intro bytes s
    by_cases h : bytes.length < len
    · simp only [readLoop, if_pos h, List.length_cons]
      exact Nat.succ_le_succ (ih _ _)
    · simp [readLoop, if_neg h]

lemma readLoop_len_le (fuel len : Nat) :
    ∀ bytes s, bytes.length ≤ len → ((readLoop fuel len bytes s).1).length ≤ len := by
  induction fuel with
  | zero => intro bytes s h; simpa [readLoop] using h
  | succ n ih =>
    intro bytes s h
    by_cases hlt : bytes.length < len
    · simp only [readLoop, if_pos hlt]
      refine ih _ _ ?_
      have h1 := parent_read_len_le (len - bytes.length) s
      simp only [List.length_append]
      omega
    · simpa [readLoop, if_neg hlt] using h

lemma readLoop_pos (fuel len : Nat) :
    ∀ bytes s, (readLoop fuel len bytes s).2.1.pos + bytes.length =
      s.pos + ((readLoop fuel len bytes s).1).length := by
  induction fuel with
  | zero => intro bytes s; simp [readLoop]
  | succ n ih =>
    intro bytes s
    by_cases hlt : bytes.length < len
    · simp only [readLoop, if_pos hlt]
      have h1 := ih (bytes ++ (parent_read (len - bytes.length) s).1)
        (parent_read (len - bytes.length) s).2
      have h2 := parent_read_pos (len - bytes.length) s
      simp only [List.length_append] at h1
      omega
    · simp [readLoop, if_neg hlt]

lemma readLoop_shortfalls (fuel len : Nat) :
    ∀ bytes s, shortfallsB len bytes.length ((readLoop fuel len bytes s).2.2) = true := by
  induction fuel with
  | zero => intro bytes s; simp [readLoop, shortfallsB]
  | succ n ih =>
    intro bytes s
    by_cases hlt : bytes.length < len
    · simp only [readLoop, if_pos hlt, shortfallsB, Bool.and_eq_true, beq_iff_eq]
      refine ⟨by simp, ?_⟩
      have h1 := ih (bytes ++ (parent_read (len - bytes.length) s).1)
        (parent_read (len - bytes.length) s).2
      simpa [List.length_append] using h1
    · simp [readLoop, if_neg hlt, shortfallsB]

lemma parent_read_exhausted (k : Nat) (s : SourceState) (hp : s.data.length ≤ s.pos) :
    parent_read k s = ([], ⟨s.data, s.pos, s.caps.tail⟩) := by
  have h0 : s.data.length - s.pos = 0 := Nat.sub_eq_zero_of_le hp
  simp [parent_read, h0]

lemma readLoop_exhausted (fuel n : Nat) :
    ∀ s : SourceState, s.data.length ≤ s.pos → 0 < n →
      (readLoop fuel n [] s).1 = [] ∧
      (readLoop fuel n [] s).2.1.pos = s.pos ∧
      (readLoop fuel n [] s).2.2 = List.replicate fuel (n, 0) := by
  induction fuel with
  | zero => intro s hp hn; simp [readLoop]
  | succ f ih =>
    intro s hp hn
    have hpr : parent_read n s = ([], ⟨s.data, s.pos, s.caps.tail⟩) :=
      parent_read_exhausted n s hp
    have ht := ih ⟨s.data, s.pos, s.caps.tail⟩ hp hn
    simp only [readLoop, List.length_nil, Nat.sub_zero, if_pos hn, hpr,
      List.append_nil, List.nil_append, List.replicate_succ]
    exact ⟨ht.1, ht.2.1, by rw [ht.2.2]⟩

lemma read_exhausted_fst (s : SourceState) (n : Nat)
    (hp : s.data.length ≤ s.pos) (hn : 0 < n) :
    (read s (some n) true).1 = Except.error (StreamErr.eofExact 0 n s.pos) ∧
    (read s (some n) true).2.2 = (n, 0) :: List.replicate max_read_attempts (n, 0) := by
  have hpr : parent_read n s = ([], ⟨s.data, s.pos, s.caps.tail⟩) :=
    parent_read_exhausted n s hp
  have hl := readLoop_exhausted max_read_attempts n ⟨s.data, s.pos, s.caps.tail⟩ hp hn
  simp only [read, hpr, hl.1, List.length_nil, if_pos hn, tell,
    hl.2.1, Nat.sub_zero, hl.2.2]
  rw [if_pos (⟨hn, trivial⟩ : 0 < n ∧ True)]
  exact ⟨rfl, rfl⟩

lemma read_leUS_two (a b : Nat) :
    read_leUS ⟨[a, b], 0, []⟩ = Except.ok (a + 256 * b, ⟨[a, b], 2, []⟩) := rfl

lemma read_beUS_two (a b : Nat) :
    read_beUS ⟨[a, b], 0, []⟩ = Except.ok (256 * a + b, ⟨[a, b], 2, []⟩) := rfl

lemma read_leUL_four (a b c d : Nat) :
    read_leUL ⟨[a, b, c, d], 0, []⟩ =
      Except.ok (a + 256 * b + 65536 * c + 16777216 * d, ⟨[a, b, c, d], 4, []⟩) := rfl

lemma read_beUL_four (a b c d : Nat) :
    read_beUL ⟨[a, b, c, d], 0, []⟩ =
      Except.ok (16777216 * a + 65536 * b + 256 * c + d, ⟨[a, b, c, d], 4, []⟩) := rfl

/-- Claim C1: decoding the encoding returns the original value, for
16-bit values under both byte orders (read_leUS of write_leUS output,
read_beUS of write_beUS output) and for 32-bit values under both byte
orders (read_leUL of write_leUL, read_beUL of write_beUL). -/
theorem roundtrip_US_UL (v : Nat) :
    (v < 65536 →
      read_leUS ⟨write_leUS v, 0, []⟩ = Except.ok (v, ⟨write_leUS v, 2, []⟩) ∧
      read_beUS ⟨write_beUS v, 0, []⟩ = Except.ok (v, ⟨write_beUS v, 2, []⟩)) ∧
    (v < 4294967296 →
      read_leUL ⟨write_leUL v, 0, []⟩ = Except.ok (v, ⟨write_leUL v, 4, []⟩) ∧
      read_beUL ⟨write_beUL v, 0, []⟩ = Except.ok (v, ⟨write_beUL v, 4, []⟩)) := by
  constructor
  · intro h
    constructor
    · have e : v % 256 + 256 * (v / 256 % 256) = v := by omega
      have := read_leUS_two (v % 256) (v / 256 % 256)
      rw [e] at this
      exact this
    · have e : 256 * (v / 256 % 256) + v % 256 = v := by omega
      have := read_beUS_two (v / 256 % 256) (v % 256)
      rw [e] at this
      exact this
  · intro h
    constructor
    · have e : v % 256 + 256 * (v / 256 % 256) + 65536 * (v / 65536 % 256) +
          16777216 * (v / 16777216 % 256) = v := by omega
      have := read_leUL_four (v % 256) (v / 256 % 256) (v / 65536 % 256) (v / 16777216 % 256)
      rw [e] at this
      exact this
    · have e : 16777216 * (v / 16777216 % 256) + 65536 * (v / 65536 % 256) +
          256 * (v / 256 % 256) + v % 256 = v := by omega
      have := read_beUL_four (v / 16777216 % 256) (v / 65536 % 256) (v / 256 % 256) (v % 256)
      rw [e] at this
      exact this

/-- Witness for claim C1 at the concrete values 43981 and 305419896. -/
theorem roundtrip_US_UL_witness :
    43981 < 65536 ∧ 305419896 < 4294967296 ∧
    read_leUS ⟨write_leUS 43981, 0, []⟩ = Except.ok (43981, ⟨write_leUS 43981, 2, []⟩) ∧
    read_beUL ⟨write_beUL 305419896, 0, []⟩ =
      Except.ok (305419896, ⟨write_beUL 305419896, 4, []⟩) :=
  ⟨by norm_num, by norm_num,
    ((roundtrip_US_UL 43981).1 (by norm_num)).1,
    ((roundtrip_US_UL 305419896).2 (by norm_num)).2⟩

/-- Claim C4: assigning the endianness flag rebinds which codec variant
the primitive reads and writes use: after setting little-endian they are
the little-endian variants, after setting it false or setting big-endian
true they are the big-endian variants, and a later mutator call changes
the variant used by subsequent calls. -/
theorem endian_rebind (st : DicomState) (s : SourceState) (v : Nat) :
    (read_US (setLittleEndian true st) s = read_leUS s ∧
     read_UL (setLittleEndian true st) s = read_leUL s ∧
     write_US (setLittleEndian true st) v = write_leUS v ∧
     write_UL (setLittleEndian true st) v = write_leUL v) ∧
    (read_US (setLittleEndian false st) s = read_beUS s ∧
     read_UL (setLittleEndian false st) s = read_beUL s ∧
     write_US (setLittleEndian false st) v = write_beUS v ∧
     write_UL (setLittleEndian false st) v = write_beUL v) ∧
    (read_US (setBigEndian true st) s = read_beUS s ∧
     write_US (setBigEndian true st) v = write_beUS v) ∧
    (read_US (setBigEndian true (setLittleEndian true st)) s = read_beUS s ∧
     read_US (setLittleEndian true (setBigEndian true st)) s = read_leUS s ∧
     write_UL (setLittleEndian true (setLittleEndian false st)) v = write_leUL v) :=
  ⟨⟨rfl, rfl, rfl, rfl⟩, ⟨rfl, rfl, rfl, rfl⟩, ⟨rfl, rfl⟩, ⟨rfl, rfl, rfl⟩⟩

/-- Claim C5: read_tag over bytes 01 00 02 00 yields Tag(1, 2) in
little-endian mode and Tag(0x0100, 0x0200) in big-endian mode; the group
comes from the first two bytes in both modes. -/
theorem read_tag_cases :
    read_tag (setLittleEndian true initState) ⟨[1, 0, 2, 0], 0, []⟩ =
      Except.ok (Tag.ofPair 1 2, ⟨[1, 0, 2, 0], 4, []⟩) ∧
    read_tag (setBigEndian true initState) ⟨[1, 0, 2, 0], 0, []⟩ =
      Except.ok (Tag.ofPair 256 512, ⟨[1, 0, 2, 0], 4, []⟩) :=
  ⟨rfl, rfl⟩

/-- Claim C6: write_tag of Tag(1, 2) emits 01 00 02 00 in little-endian
mode and 00 01 00 02 in big-endian mode; every accepted input is
normalized to a Tag and the group is written before the element through
the endian-active 16-bit encoder. -/
theorem write_tag_cases :
    write_tag (setLittleEndian true initState) (TagLike.tag (Tag.ofPair 1 2)) = [1, 0, 2, 0] ∧
    write_tag (setBigEndian true initState) (TagLike.tag (Tag.ofPair 1 2)) = [0, 1, 0, 2] ∧
    (∀ st g e, write_tag st (TagLike.pair g e) = write_tag st (TagLike.tag (Tag.ofPair g e))) ∧
    (∀ st t, write_tag st t =
      write_US st (TagLike.toTag t).group ++ write_US st (TagLike.toTag t).element) :=
  ⟨rfl, rfl, fun _ _ _ => rfl, fun _ _ => rfl⟩

/-- Claim C9 counterexample: read(0) does invoke the underlying read; on
a concrete stream the call trace of read(0) has exactly one entry, a
request of 0 bytes, refuting the claim that the underlying read is not
called at all. -/
theorem read_zero_length_cex :
    (read ⟨[9], 0, []⟩ (some 0) true).2.2 = [(0, 0)] ∧
    ((read ⟨[9], 0, []⟩ (some 0) true).2.2).length ≠ 0 :=
  ⟨rfl, by decide⟩

/-- Claim C9 as amended: read(0) returns empty bytes and leaves the
position unchanged, but it issues exactly one underlying read, a request
of 0 bytes. -/
theorem read_zero_length (s : SourceState) :
    read s (some 0) true = (Except.ok [], ⟨s.data, s.pos, s.caps.tail⟩, [(0, 0)]) := by
  have h0 : callCap 0 s.caps = 0 := Nat.le_zero.mp (callCap_le 0 s.caps)
  have hz : parent_read 0 s = ([], ⟨s.data, s.pos, s.caps.tail⟩) := by
    simp [parent_read, h0]
  simp [read, hz]

/-- Claim C10: on a freshly constructed DicomIO, before any endianness
assignment, write_US and write_UL are bound through the class-level
defaults to the little-endian encoders, while read_US and read_UL are
unbound and fail with an attribute error. -/
theorem default_bindings (v : Nat) (s : SourceState) :
    write_US initState v = write_leUS v ∧
    write_UL initState v = write_leUL v ∧
    read_US initState s = Except.error StreamErr.attrError ∧
    read_UL initState s = Except.error StreamErr.attrError :=
  ⟨rfl, rfl, rfl, rfl⟩

/-- Claim C2: for a positive requested length, read issues a first
underlying call of that length; the call trace never exceeds one initial
call plus max_read_attempts retries; every call requests exactly the
remaining shortfall; a successful result has exactly the requested
length; a failure carries an obtained count short of the expected
length, the expected length, and a start offset equal to tell() minus
the accumulated length. -/
theorem read_exact_spec (s : SourceState) (n : Nat) (_hn : 0 < n) :
    (((read s (some n) true).2.2).map Prod.fst).head? = some n ∧
    ((read s (some n) true).2.2).length ≤ 1 + max_read_attempts ∧
    shortfallsB n 0 ((read s (some n) true).2.2) = true ∧
    (∀ bs, (read s (some n) true).1 = Except.ok bs → bs.length = n) ∧
    (∀ ob ex sp, (read s (some n) true).1 = Except.error (StreamErr.eofExact ob ex sp) →
      ob < n ∧ ex = n ∧ sp = tell (read s (some n) true).2.1 - ob) := by
  have hple := parent_read_len_le n s
  by_cases hc : ((parent_read n s).1).length < n
  · have hloop_le := readLoop_len_le max_read_attempts n (parent_read n s).1
      (parent_read n s).2 (Nat.le_of_lt hc)
    have hcalls := readLoop_calls_le max_read_attempts n (parent_read n s).1 (parent_read n s).2
    have hsf := readLoop_shortfalls max_read_attempts n (parent_read n s).1 (parent_read n s).2
    by_cases hl :
        ((readLoop max_read_attempts n (parent_read n s).1 (parent_read n s).2).1).length < n
    · have heq : read s (some n) true =
          (Except.error (StreamErr.eofExact
              ((readLoop max_read_attempts n (parent_read n s).1 (parent_read n s).2).1).length n
              (tell (readLoop max_read_attempts n (parent_read n s).1 (parent_read n s).2).2.1 -
                ((readLoop max_read_attempts n (parent_read n s).1
                  (parent_read n s).2).1).length)),
            (readLoop max_read_attempts n (parent_read n s).1 (parent_read n s).2).2.1,
            (n, ((parent_read n s).1).length) ::
              (readLoop max_read_attempts n (parent_read n s).1 (parent_read n s).2).2.2) := by
        simp only [read]
        rw [if_pos (⟨hc, trivial⟩ : ((parent_read n s).1).length < n ∧ True), if_pos hl]
      rw [heq]
      refine ⟨rfl, ?_, ?_, ?_, ?_⟩
      · simp only [List.length_cons]
        omega
      · simpa [shortfallsB] using hsf
      · intro bs hbs
        exact absurd hbs (by simp)
      · intro ob ex sp hh
        simp only [Except.error.injEq, StreamErr.eofExact.injEq] at hh
        obtain ⟨h1, h2, h3⟩ := hh
        subst h1
        subst h2
        subst h3
        exact ⟨hl, rfl, rfl⟩
    · have heq : read s (some n) true =
          (Except.ok (readLoop max_read_attempts n (parent_read n s).1 (parent_read n s).2).1,
            (readLoop max_read_attempts n (parent_read n s).1 (parent_read n s).2).2.1,
            (n, ((parent_read n s).1).length) ::
              (readLoop max_read_attempts n (parent_read n s).1 (parent_read n s).2).2.2) := by
        simp only [read]
        rw [if_pos (⟨hc, trivial⟩ : ((parent_read n s).1).length < n ∧ True), if_neg hl]
      rw [heq]
      refine ⟨rfl, ?_, ?_, ?_, ?_⟩
      · simp only [List.length_cons]
        omega
      · simpa [shortfallsB] using hsf
      · intro bs hbs
        simp only [Except.ok.injEq] at hbs
        subst hbs
        omega
      · intro ob ex sp hh
        exact absurd hh (by simp)
  · have heq : read s (some n) true =
        (Except.ok (parent_read n s).1, (parent_read n s).2,
          [(n, ((parent_read n s).1).length)]) := by
      simp only [read]
      rw [if_neg (fun hh => hc hh.1)]
    rw [heq]
    refine ⟨rfl, by simp, ?_, ?_, ?_⟩
    · simp [shortfallsB]
    · intro bs hbs
      simp only [Except.ok.injEq] at hbs
      subst hbs
      omega
    · intro ob ex sp hh
      exact absurd hh (by simp)

/-- Witness for claim C2 on a chunked source delivering one byte per
call: three bytes are requested and obtained across retries. -/
theorem read_exact_spec_witness :
    0 < 3 ∧
    (((read ⟨[5, 6, 7], 0, [some 1, some 1, some 1]⟩ (some 3) true).2.2).map
      Prod.fst).head? = some 3 ∧
    shortfallsB 3 0 ((read ⟨[5, 6, 7], 0, [some 1, some 1, some 1]⟩ (some 3) true).2.2) = true :=
  ⟨by decide,
    (read_exact_spec ⟨[5, 6, 7], 0, [some 1, some 1, some 1]⟩ 3 (by decide)).1,
    (read_exact_spec ⟨[5, 6, 7], 0, [some 1, some 1, some 1]⟩ 3 (by decide)).2.2.1⟩

/-- Claim C3 counterexample: on a source that yields zero bytes, read(2)
makes four underlying calls (the initial one plus three retries) before
failing, refuting the claim that it fails immediately after a single
initial call with no retry attempted. -/
theorem read_zero_first_cex :
    ((read ⟨[], 0, []⟩ (some 2) true).2.2).length = 4 ∧
    (read ⟨[], 0, []⟩ (some 2) true).1 = Except.error (StreamErr.eofExact 0 2 0) :=
  ⟨rfl, rfl⟩

/-- Claim C3 as amended: when the very first underlying read returns
zero bytes because the source is exhausted, read(n) still performs all
max_read_attempts retries, each requesting n and receiving nothing, and
only then fails with the end-of-stream error; there is no zero-bytes
special case inside DicomIO.read. -/
theorem read_zero_source_retries (s : SourceState) (n : Nat)
    (hp : s.data.length ≤ s.pos) (hn : 0 < n) :
    (read s (some n) true).1 = Except.error (StreamErr.eofExact 0 n s.pos) ∧
    (read s (some n) true).2.2 = (n, 0) :: List.replicate max_read_attempts (n, 0) :=
  read_exhausted_fst s n hp hn

/-- Witness for the amended claim C3 on an empty source and n = 2. -/
theorem read_zero_source_retries_witness :
    ([] : List Nat).length ≤ 0 ∧ 0 < 2 ∧
    (read ⟨[], 0, []⟩ (some 2) true).2.2 =
      (2, 0) :: List.replicate max_read_attempts (2, 0) :=
  ⟨by decide, by decide,
    (read_zero_source_retries ⟨[], 0, []⟩ 2 (by decide) (by decide)).2⟩

lemma applyMutator_preserves (m : Mutator) (st : DicomState)
    (h : st.LittleEndian.isSome = true) :
    ((applyMutator m st).LittleEndian).isSome = true := by
  cases m <;>
    simp [applyMutator, setLittleEndian, setBigEndian, setImplicitVR, setExplicitVR, h]

lemma applyAll_preserves (ms : List Mutator) :
    ∀ st : DicomState, st.LittleEndian.isSome = true →
      ((applyAll ms st).LittleEndian).isSome = true := by
  induction ms with
  | nil => intro st h; simpa [applyAll] using h
  | cons m tl ih =>
    intro st h
    simp only [applyAll, List.foldl_cons] at *
    exact ih _ (applyMutator_preserves m st h)

lemma applyAll_endian_isSome (ms : List Mutator) :
    ∀ st : DicomState, (∃ m ∈ ms, touchesEndian m = true) →
      ((applyAll ms st).LittleEndian).isSome = true := by
  induction ms with
  | nil =>
    intro st h
    rcases h with ⟨m, hm, _⟩
    exact absurd hm (List.not_mem_nil m)
  | cons m tl ih =>
    intro st h
    rcases h with ⟨m0, hm0, ht⟩
    rcases List.mem_cons.mp hm0 with heq | hmem
    · subst heq
      have hset : ((applyMutator m0 st).LittleEndian).isSome = true := by
        cases m0 <;>
          simp_all [applyMutator, setLittleEndian, setBigEndian, touchesEndian]
      simpa [applyAll, List.foldl_cons] using applyAll_preserves tl _ hset
    · simp only [applyAll, List.foldl_cons]
      exact ih _ ⟨m0, hmem, ht⟩

/-- Claim C7: after any sequence of mutator calls containing at least
one endianness assignment, the mode flags are pairwise complementary:
isBigEndian reads the negation of isLittleEndian, isExplicitVR reads the
negation of isImplicitVR, and in particular setting big-endian true
makes isLittleEndian read false and conversely. -/
theorem mode_flags_complementary (ms : List Mutator)
    (h : ∃ m ∈ ms, touchesEndian m = true) :
    (∃ b, getLittleEndian (applyAll ms initState) = some b ∧
      getBigEndian (applyAll ms initState) = some (!b)) ∧
    getExplicitVR (applyAll ms initState) = !getImplicitVR (applyAll ms initState) ∧
    (∀ st : DicomState,
      getLittleEndian (setBigEndian true st) = some false ∧
      getBigEndian (setBigEndian true st) = some true ∧
      getLittleEndian (setLittleEndian true st) = some true ∧
      getBigEndian (setLittleEndian true st) = some false) := by
  refine ⟨?_, rfl, fun st => ⟨rfl, rfl, rfl, rfl⟩⟩
  have hs := applyAll_endian_isSome ms initState h
  rcases Option.isSome_iff_exists.mp hs with ⟨b, hb⟩
  exact ⟨b, by simp [getLittleEndian, hb], by simp [getBigEndian, hb]⟩

/-- Witness for claim C7 on the single-call sequence setBigEndian true. -/
theorem mode_flags_complementary_witness :
    (∃ m ∈ [Mutator.setBE true], touchesEndian m = true) ∧
    (∃ b, getLittleEndian (applyAll [Mutator.setBE true] initState) = some b ∧
      getBigEndian (applyAll [Mutator.setBE true] initState) = some (!b)) := by
  have hw : ∃ m ∈ [Mutator.setBE true], touchesEndian m = true :=
    ⟨Mutator.setBE true, List.mem_singleton.mpr rfl, rfl⟩
  exact ⟨hw, (mode_flags_complementary [Mutator.setBE true] hw).1⟩

lemma read_leUS_exhausted (s : SourceState) (hp : s.data.length ≤ s.pos) :
    read_leUS s = Except.error (StreamErr.eofExact 0 2 s.pos) := by
  have h1 := (read_exhausted_fst s 2 hp (by norm_num)).1
  unfold read_leUS
  rcases hrt : read s (some 2) true with ⟨r1, r2, r3⟩
  rw [hrt] at h1
  simp only at h1
  subst h1
  simp

lemma read_beUS_exhausted (s : SourceState) (hp : s.data.length ≤ s.pos) :
    read_beUS s = Except.error (StreamErr.eofExact 0 2 s.pos) := by
  have h1 := (read_exhausted_fst s 2 hp (by norm_num)).1
  unfold read_beUS
  rcases hrt : read s (some 2) true with ⟨r1, r2, r3⟩
  rw [hrt] at h1
  simp only at h1
  subst h1
  simp

/-- Claim C8: with an endianness variant bound and zero bytes remaining,
read_US fails with the end-of-stream error and read_tag propagates that
same error unchanged, returning no partially populated Tag. -/
theorem read_tag_at_eof (st : DicomState) (s : SourceState) (e : Endian)
    (hb : st.read_US_b = some e) (hs : s.data.length ≤ s.pos) :
    read_US st s = Except.error (StreamErr.eofExact 0 2 s.pos) ∧
    read_tag st s = Except.error (StreamErr.eofExact 0 2 s.pos) := by
  have hUS : read_US st s = Except.error (StreamErr.eofExact 0 2 s.pos) := by
    cases e with
    | le =>
      unfold read_US
      rw [hb]
      exact read_leUS_exhausted s hs
    | be =>
      unfold read_US
      rw [hb]
      exact read_beUS_exhausted s hs
  refine ⟨hUS, ?_⟩
  unfold read_tag
  rw [hUS]

/-- Witness for claim C8 in little-endian mode on an empty source. -/
theorem read_tag_at_eof_witness :
    (setLittleEndian true initState).read_US_b = some Endian.le ∧
    ([] : List Nat).length ≤ 0 ∧
    read_tag (setLittleEndian true initState) ⟨[], 0, []⟩ =
      Except.error (StreamErr.eofExact 0 2 0) :=
  ⟨rfl, by decide,
    (read_tag_at_eof (setLittleEndian true initState) ⟨[], 0, []⟩ Endian.le rfl (by decide)).2⟩

end FileBase
